import Mathlib

/-
  Verification development for the Dify SSE proxy wrapper.

  Shallow embedding of the repository's stream-processing core:
    - models/dify_models.py     (DifySSEEvent.parse_data)
    - services/sse_processor.py (_parse_sse_line, _is_workflow_finished_event,
                                 _extract_workflow_result, _create_error_response,
                                 process_dify_stream, _send_keepalive)
    - services/dify_client.py   (execute_workflow_stream line reassembly)

  Python dict/JSON values are modelled by the inductive `JValue`; Python's
  json.loads is modelled by the executable recursive-descent parser `jsonParse`
  (covering the JSON grammar as used by the repository: null, booleans,
  decimal numbers, strings with escapes, arrays, objects; numbers are kept as
  mantissa/power-of-ten pairs, the int/float distinction of Python is not
  tracked because no code path inspects it).
-/

namespace DifyWrapper

/-- Whitespace characters stripped by Python's `str.strip()` (ASCII subset,
which is all the repository's inputs exercise). -/
def pyWs (c : Char) : Bool :=
  c == ' ' || c == '\t' || c == '\n' || c == '\r' || c == '\x0b' || c == '\x0c'

/-- Strip `pyWs` from both ends of a character list (Python `str.strip()`). -/
def trimL (cs : List Char) : List Char :=
  ((cs.dropWhile pyWs).reverse.dropWhile pyWs).reverse

/-- Python `str.strip()` on strings. -/
def pyStrip (s : String) : String :=
  (trimL s.toList).asString

/-- Prefix test: `startsWithL pat cs` is Python `cs.startswith(pat)`. -/
def startsWithL : List Char → List Char → Bool
  | [], _ => true
  | _ :: _, [] => false
  | p :: ps, c :: cs => p == c && startsWithL ps cs

/-- JSON / Python value model.  `num m e` stands for the decimal number
`m * 10 ^ e`. Objects are association lists in source order (duplicate keys
possible; lookup takes the last occurrence, as Python dicts built by
`json.loads` do). -/
inductive JValue where
  | null : JValue
  | bool : Bool → JValue
  | num : Int → Int → JValue
  | str : String → JValue
  | arr : List JValue → JValue
  | obj : List (String × JValue) → JValue

/-- Python `dict.get(k)` (None ↦ `none`); with duplicate keys the last wins. -/
def objGet (kvs : List (String × JValue)) (k : String) : Option JValue :=
  match kvs with
  | [] => none
  | (k', v) :: rest =>
    match objGet rest k with
    | some v' => some v'
    | none => if k' == k then some v else none

/-- Python truthiness of a JSON value. -/
def JValue.truthy : JValue → Bool
  | .null => false
  | .bool b => b
  | .num m _ => m != 0
  | .str s => s != ""
  | .arr xs => !xs.isEmpty
  | .obj kvs => !kvs.isEmpty

/-- JSON insignificant whitespace. -/
def jsonWs (c : Char) : Bool :=
  c == ' ' || c == '\t' || c == '\n' || c == '\r'

def skipWs (cs : List Char) : List Char := cs.dropWhile jsonWs

def isDigit (c : Char) : Bool := '0' ≤ c && c ≤ '9'

def digitVal (c : Char) : Nat := c.toNat - 48

def hexVal (c : Char) : Option Nat :=
  if '0' ≤ c && c ≤ '9' then some (c.toNat - 48)
  else if 'a' ≤ c && c ≤ 'f' then some (c.toNat - 87)
  else if 'A' ≤ c && c ≤ 'F' then some (c.toNat - 55)
  else none

/-- Fuel-indexed body of a JSON string after the opening quote: returns
the decoded characters and the input remaining after the closing quote.
Mirrors Python's `json.loads` string rules: the standard escapes,
`\uXXXX`, and a rejection of raw control characters.  Every step consumes
at least one character, so fuel `length + 1` always suffices. -/
def pStringF : Nat → List Char → Option (List Char × List Char)
  | 0, _ => none
  | _ + 1, [] => none
  | _ + 1, '"' :: rest => some ([], rest)
  | fuel + 1, '\\' :: e :: rest =>
    match e with
    | '"' => (pStringF fuel rest).map (fun p => ('"' :: p.1, p.2))
    | '\\' => (pStringF fuel rest).map (fun p => ('\\' :: p.1, p.2))
    | '/' => (pStringF fuel rest).map (fun p => ('/' :: p.1, p.2))
    | 'b' => (pStringF fuel rest).map (fun p => ('\x08' :: p.1, p.2))
    | 'f' => (pStringF fuel rest).map (fun p => ('\x0c' :: p.1, p.2))
    | 'n' => (pStringF fuel rest).map (fun p => ('\n' :: p.1, p.2))
    | 'r' => (pStringF fuel rest).map (fun p => ('\r' :: p.1, p.2))
    | 't' => (pStringF fuel rest).map (fun p => ('\t' :: p.1, p.2))
    | 'u' =>
      match rest with
      | h1 :: h2 :: h3 :: h4 :: rest' =>
        match hexVal h1, hexVal h2, hexVal h3, hexVal h4 with
        | some a, some b, some c, some d =>
          (pStringF fuel rest').map
            (fun p => (Char.ofNat (((a * 16 + b) * 16 + c) * 16 + d) :: p.1, p.2))
        | _, _, _, _ => none
      | _ => none
    | _ => none
  | fuel + 1, c :: rest =>
    if c.toNat < 32 then none
    else (pStringF fuel rest).map (fun p => (c :: p.1, p.2))

/-- JSON string body with always-sufficient fuel. -/
def pStringBody (cs : List Char) : Option (List Char × List Char) :=
  pStringF (cs.length + 1) cs

/-- Parse the exponent suffix of a JSON number (if any) and finish the
number with mantissa `m` and decimal exponent `e`. -/
def pExpPart (m : Int) (e : Int) (cs : List Char) : Option (JValue × List Char) :=
  match cs with
  | c :: r =>
    if c == 'e' || c == 'E' then
      let negE : Bool := startsWithL ['-'] r
      let r1 : List Char :=
        if startsWithL ['-'] r || startsWithL ['+'] r then r.drop 1 else r
      let ds := r1.takeWhile isDigit
      let r2 := r1.dropWhile isDigit
      if ds = [] then none
      else
        let ev : Nat := ds.foldl (fun a c => a * 10 + digitVal c) 0
        let sgn : Int := if negE then -1 else 1
        some (.num m (e + sgn * (ev : Int)), r2)
    else some (.num m e, cs)
  | [] => some (.num m e, cs)

/-- Parse a JSON number (Python `json.loads` grammar: optional minus, no
leading zeros, optional fraction and exponent). -/
def pNumber (cs : List Char) : Option (JValue × List Char) :=
  let neg : Bool := startsWithL ['-'] cs
  let cs1 : List Char := if neg then cs.drop 1 else cs
  let ds := cs1.takeWhile isDigit
  let cs2 := cs1.dropWhile isDigit
  if ds = [] then none
  else if 1 < ds.length && ds.headD '0' == '0' then none
  else
    let iv : Nat := ds.foldl (fun a c => a * 10 + digitVal c) 0
    let sgn : Int := if neg then -1 else 1
    match cs2 with
    | '.' :: cs3 =>
      let fs := cs3.takeWhile isDigit
      let cs4 := cs3.dropWhile isDigit
      if fs = [] then none
      else
        let fv : Nat := fs.foldl (fun a c => a * 10 + digitVal c) 0
        pExpPart (sgn * ((iv * 10 ^ fs.length + fv : Nat) : Int)) (-(fs.length : Int)) cs4
    | _ => pExpPart (sgn * (iv : Int)) 0 cs2

mutual

/-- Fuel-indexed JSON value parser (recursive descent, mirroring the grammar
accepted by Python's `json.loads`). -/
def pValue : Nat → List Char → Option (JValue × List Char)
  | 0, _ => none
  | fuel + 1, cs =>
    match skipWs cs with
    | 'n' :: 'u' :: 'l' :: 'l' :: r => some (.null, r)
    | 't' :: 'r' :: 'u' :: 'e' :: r => some (.bool true, r)
    | 'f' :: 'a' :: 'l' :: 's' :: 'e' :: r => some (.bool false, r)
    | '"' :: r => (pStringBody r).map (fun p => (.str p.1.asString, p.2))
    | '[' :: r =>
      match skipWs r with
      | ']' :: r' => some (.arr [], r')
      | _ => pElems fuel r []
    | '\x7b' :: r =>
      match skipWs r with
      | '\x7d' :: r' => some (.obj [], r')
      | _ => pMembers fuel r []
    | cs' => pNumber cs'

/-- Array elements after `[` (at least one element pending). -/
def pElems : Nat → List Char → List JValue → Option (JValue × List Char)
  | 0, _, _ => none
  | fuel + 1, cs, acc =>
    match pValue fuel cs with
    | some (v, r) =>
      match skipWs r with
      | ',' :: r' => pElems fuel r' (acc ++ [v])
      | ']' :: r' => some (.arr (acc ++ [v]), r')
      | _ => none
    | none => none

/-- Object members after the opening brace (at least one member pending). -/
def pMembers : Nat → List Char → List (String × JValue) → Option (JValue × List Char)
  | 0, _, _ => none
  | fuel + 1, cs, acc =>
    match skipWs cs with
    | '"' :: r =>
      match pStringBody r with
      | some (k, r1) =>
        match skipWs r1 with
        | ':' :: r2 =>
          match pValue fuel r2 with
          | some (v, r3) =>
            match skipWs r3 with
            | ',' :: r4 => pMembers fuel r4 (acc ++ [(k.asString, v)])
            | '\x7d' :: r4 => some (.obj (acc ++ [(k.asString, v)]), r4)
            | _ => none
          | none => none
        | _ => none
      | none => none
    | _ => none

end

/-- Model of Python's `json.loads`: parse the whole string as one JSON value
(trailing non-whitespace rejected); `none` models a raised
`json.JSONDecodeError`. -/
def jsonParse (s : String) : Option JValue :=
  match pValue (2 * s.length + 8) s.toList with
  | some (v, rest) => if skipWs rest = [] then some v else none
  | none => none

/-- Model of `DifySSEEvent` (`models/dify_models.py`): an SSE record as built by
`_parse_sse_line` — the SSE-level event tag and the raw (undecoded) data
payload. -/
structure DifySSEEvent where
  event : String
  data : String

/-- Model of `DifySSEEvent.parse_data`: decode the `data` field with `json.loads`;
on `json.JSONDecodeError` return the wrapper dict with the raw text under
`"raw_data"`.  Total (the Python method catches the decode error). -/
def DifySSEEvent.parse_data (e : DifySSEEvent) : JValue :=
  match jsonParse e.data with
  | some v => v
  | none => .obj [("raw_data", .str e.data)]

/-- Model of `SSEProcessor._parse_sse_line`, with the processor's `_current_event`
instance attribute made explicit: `pending = none` models the attribute
never having been set (so `getattr(self, '_current_event', 'message')`
falls back to `"message"`).  Returns the updated attribute and the record
produced for this line, if any.  In the repository the attribute lives on a
module-level singleton (`main.py` line 55), so it survives from one
invocation of `process_dify_stream` to the next. -/
def parseSSELine (pending : Option String) (line : String) :
    Option String × Option DifySSEEvent :=
  let cs := trimL line.toList
  if cs = [] then (pending, none)
  else if startsWithL [':'] cs then (pending, none)
  else if startsWithL "event:".toList cs then
    (some (trimL (cs.drop 6)).asString, none)
  else if startsWithL "data:".toList cs then
    let dc := trimL (cs.drop 5)
    if dc = [] then (pending, none)
    else (pending, some ⟨pending.getD "message", dc.asString⟩)
  else (pending, none)

/-- Model of `SSEProcessor._is_workflow_finished_event`: decode the record's data and
test `data.get('event') == 'workflow_finished'`.  When the decoded value is
not a dict, the attribute error raised by `.get` is caught and the function
returns `False`. -/
def isWorkflowFinishedEvent (e : DifySSEEvent) : Bool :=
  match e.parse_data with
  | .obj kvs =>
    match objGet kvs "event" with
    | some (.str s) => s == "workflow_finished"
    | _ => false
  | _ => false

/-- The dict returned by `SSEProcessor._extract_workflow_result` (its
`event_type` entry is the constant `"workflow_finished"` and is left
implicit).  `result` is a `JValue`, with `.null` standing for Python
`None`. -/
structure Extracted where
  workflow_run_id : JValue
  task_id : JValue
  status : JValue
  result : JValue

/-- Model of `SSEProcessor._extract_workflow_result`.  `none` models the `except`
branch (an exception while extracting — in practice an attribute error from
calling `.get` on a non-dict `data` / `outputs` value); the orchestrator
then keeps consuming. -/
def extractWorkflowResult (e : DifySSEEvent) : Option Extracted :=
  match e.parse_data with
  | .obj kvs =>
    let wid := (objGet kvs "workflow_run_id").getD (.str "")
    let tid := (objGet kvs "task_id").getD (.str "")
    match (objGet kvs "data").getD (.obj []) with
    | .obj dkvs =>
      let status := (objGet dkvs "status").getD (.str "unknown")
      match (objGet dkvs "outputs").getD (.obj []) with
      | .obj okvs =>
        let result_raw := (objGet okvs "result").getD (.str "")
        let parsed_result : JValue :=
          match result_raw with
          | .str s =>
            if pyStrip s != "" then
              match jsonParse s with
              | some v => v
              | none => .obj [("text", .str s)]
            else if s != "" then .str s
            else .null
          | v => if v.truthy then v else .null
        some ⟨wid, tid, status, parsed_result⟩
      | _ => none
    | _ => none
  | _ => none

/-- The dict returned by `SSEProcessor._create_error_response` (its constant
`status = "error"` and `event_type = "error"` entries are left implicit).
The `error` entry is a `JValue` because upstream error text is copied
verbatim from the envelope and need not be a string. -/
structure ErrorResponse where
  workflow_run_id : JValue
  task_id : JValue
  error : JValue

/-- Model of `SSEProcessor._create_error_response`: render each correlation id with
the Python idiom `x or "unknown"` — the accumulated value when truthy,
`"unknown"` when never observed or falsy. -/
def createErrorResponse (msg : String) (wid tid : Option JValue) : ErrorResponse :=
  let render : Option JValue → JValue := fun o =>
    match o with
    | some v => if v.truthy then v else .str "unknown"
    | none => .str "unknown"
  ⟨render wid, render tid, .str msg⟩

/-- As `createErrorResponse` but with an arbitrary JSON value as message
(the upstream error branch copies `Envelope.data.error` verbatim). -/
def createErrorResponseJ (msg : JValue) (wid tid : Option JValue) : ErrorResponse :=
  let render : Option JValue → JValue := fun o =>
    match o with
    | some v => if v.truthy then v else .str "unknown"
    | none => .str "unknown"
  ⟨render wid, render tid, msg⟩

/-- One value yielded by `process_dify_stream` (the Python generator yields
its `json.dumps`; serialization of these dicts is total, so the JSON string
is modelled by the structured value itself). -/
inductive Output where
  | success : Extracted → Output
  | error : ErrorResponse → Output

/-- The metadata scrape at the top of the record loop in
`process_dify_stream`: best-effort update of `workflow_run_id` / `task_id`
from the decoded record.  Only a decoded dict can update them — for any
non-dict decode the `in` test either fails or the subsequent indexing
raises, and the surrounding `try/except: pass` leaves both ids unchanged. -/
def scrapeIds (wid tid : Option JValue) (e : DifySSEEvent) :
    Option JValue × Option JValue :=
  match e.parse_data with
  | .obj kvs =>
    ((match objGet kvs "workflow_run_id" with
      | some v => some v
      | none => wid),
     (match objGet kvs "task_id" with
      | some v => some v
      | none => tid))
  | _ => (wid, tid)

/-- Python type names, as they appear in attribute-error messages.  (The
model does not track Python's int/float distinction; `num` is reported as
`int`, which is what every input exercised here produces.) -/
def pyTypeName : JValue → String
  | .null => "NoneType"
  | .bool _ => "bool"
  | .num _ _ => "int"
  | .str _ => "str"
  | .arr _ => "list"
  | .obj _ => "dict"

/-- The error-classification test in `process_dify_stream`:
`event.event == 'error' or event.parse_data().get('event') == 'error'`.
The second disjunct calls `.get` on the decoded data with no surrounding
`try`, so when the data decodes to a non-dict JSON value the test itself
raises `AttributeError` (modelled by `.error` with the Python message),
which propagates to the generator's top-level handler. -/
def errorCheck (e : DifySSEEvent) : Except String Bool :=
  if e.event == "error" then .ok true
  else
    match e.parse_data with
    | .obj kvs =>
      match objGet kvs "event" with
      | some (.str s) => .ok (s == "error")
      | _ => .ok false
    | v => .error ("'" ++ pyTypeName v ++ "' object has no attribute 'get'")

/-- Body of the error branch of `process_dify_stream`: build the error
response from `Envelope.data.error` (default `"Unknown error from Dify
API"`).  `none` models the inner `except ...: continue` — reached when the
decoded data is not a dict, or its `data` entry is present but not a dict,
so that a `.get` call raises. -/
def errorBranch (e : DifySSEEvent) (wid tid : Option JValue) : Option ErrorResponse :=
  match e.parse_data with
  | .obj kvs =>
    match (objGet kvs "data").getD (.obj []) with
    | .obj dkvs =>
      some (createErrorResponseJ
        ((objGet dkvs "error").getD (.str "Unknown error from Dify API")) wid tid)
    | _ => none
  | _ => none

/-- What the record-processing part of one loop iteration of
`process_dify_stream` does with a parsed record. -/
inductive RecordAction where
  /-- A value is yielded and the generator returns; this also covers an
  uncaught exception while processing the record, which the generator's
  top-level handler converts into a final error yield. -/
  | emit : Output → RecordAction
  /-- The record is discarded and the loop continues; the flag records
  whether the keep-alive timer is restarted at the bottom of the iteration
  (`false` for the error branch's `except ...: continue`). -/
  | skip : Bool → RecordAction

/-- Process one parsed record exactly as the loop body of
`process_dify_stream` does: scrape correlation ids, test the error
classification, then the `workflow_finished` classification.  Returns the
action together with the updated ids. -/
def recordAction (wid tid : Option JValue) (e : DifySSEEvent) :
    RecordAction × Option JValue × Option JValue :=
  let (w, t) := scrapeIds wid tid e
  match errorCheck e with
  | .error m =>
    (.emit (.error (createErrorResponse ("Stream processing error: " ++ m) w t)), w, t)
  | .ok true =>
    match errorBranch e w t with
    | some resp => (.emit (.error resp), w, t)
    | none => (.skip false, w, t)
  | .ok false =>
    if isWorkflowFinishedEvent e then
      match extractWorkflowResult e with
      | some ex => (.emit (.success ex), w, t)
      | none => (.skip true, w, t)
    else (.skip true, w, t)

/-- How the upstream line source ends: normal exhaustion, or an exception
raised by the transport (`dify_client.execute_workflow_stream` re-raises
everything as `Exception(msg)`). -/
inductive StreamEnd where
  | normal : StreamEnd
  | exn : String → StreamEnd

/-- The orchestrator of `process_dify_stream` at record granularity: the
yielded values for a given sequence of parsed records and stream end.
Terminal actions stop consumption; exhaustion without a terminal action
yields the `"Stream ended without workflow completion"` error; an upstream
exception is caught by the top-level handler and yielded as a
`"Stream processing error: ..."` error. -/
def processRecords (wid tid : Option JValue) :
    List DifySSEEvent → StreamEnd → List Output
  | [], .normal =>
    [.error (createErrorResponse "Stream ended without workflow completion" wid tid)]
  | [], .exn m =>
    [.error (createErrorResponse ("Stream processing error: " ++ m) wid tid)]
  | e :: es, se =>
    match recordAction wid tid e with
    | (.emit o, _, _) => [o]
    | (.skip _, w, t) => processRecords w t es se

/-- Correlation ids accumulated by the metadata scrape over a record list. -/
def idsAfter (wid tid : Option JValue) :
    List DifySSEEvent → Option JValue × Option JValue
  | [] => (wid, tid)
  | e :: es =>
    let (w, t) := scrapeIds wid tid e
    idsAfter w t es

/-- Holds (`true`) when every record in the list is discarded (no terminal action)
when processed starting from the given ids. -/
def allSkip (wid tid : Option JValue) : List DifySSEEvent → Bool
  | [] => true
  | e :: es =>
    match recordAction wid tid e with
    | (.skip _, w, t) => allSkip w t es
    | _ => false

/-- Operations performed on the keep-alive task by `process_dify_stream`:
`start` is `asyncio.create_task(self._send_keepalive())`, `cancel` is the
`if not keepalive_task.done(): keepalive_task.cancel()` at the top of each
loop iteration (after it, the current timer is certainly not pending). -/
inductive TimerOp where
  | start : TimerOp
  | cancel : TimerOp
deriving DecidableEq, Repr

/-- How a run of `process_dify_stream` reached its single yield:
via a record (a terminal record, or an uncaught exception raised while
processing a record), via exhaustion of the line source, or via an
exception raised by the upstream transport itself. -/
inductive DoneBy where
  | record : DoneBy
  | exhaustion : DoneBy
  | upstreamExn : DoneBy
deriving DecidableEq, Repr

/-- Observable outcome of one invocation of `process_dify_stream`: the
yielded values, the keep-alive operations in order, the final value of the
singleton's `_current_event` attribute, and how the run ended. -/
structure RunResult where
  outputs : List Output
  timerOps : List TimerOp
  pendingFinal : Option String
  doneBy : DoneBy

/-- The line loop of `process_dify_stream` (everything inside the `async
for` plus the two end-of-stream paths), with the singleton's
`_current_event` attribute and the correlation ids threaded explicitly.
Faithful points: the keep-alive timer is cancelled at the top of every
iteration (for every line, record or not) and restarted only at the bottom
of an iteration that discarded a record other than through the error
branch's `continue`; lines that parse to no record restart nothing. -/
def processLoop (pending : Option String) (wid tid : Option JValue) :
    List String → StreamEnd → RunResult
  | [], .normal =>
    ⟨[.error (createErrorResponse "Stream ended without workflow completion" wid tid)],
      [], pending, .exhaustion⟩
  | [], .exn m =>
    ⟨[.error (createErrorResponse ("Stream processing error: " ++ m) wid tid)],
      [], pending, .upstreamExn⟩
  | line :: rest, se =>
    match parseSSELine pending line with
    | (pending', none) =>
      let r := processLoop pending' wid tid rest se
      ⟨r.outputs, .cancel :: r.timerOps, r.pendingFinal, r.doneBy⟩
    | (pending', some e) =>
      match recordAction wid tid e with
      | (.emit o, _, _) => ⟨[o], [.cancel], pending', .record⟩
      | (.skip restart, w, t) =>
        let r := processLoop pending' w t rest se
        ⟨r.outputs,
          .cancel :: (if restart then .start :: r.timerOps else r.timerOps),
          r.pendingFinal, r.doneBy⟩

/-- One full invocation of `process_dify_stream`, given the singleton's
`_current_event` attribute as it stands when the invocation begins (`none`
for a freshly constructed processor) and the lines produced by the
upstream transport.  The initial `start` is the keep-alive task created on
entry. -/
def processDifyStream (pending : Option String) (lines : List String)
    (se : StreamEnd) : RunResult :=
  let r := processLoop pending none none lines se
  ⟨r.outputs, .start :: r.timerOps, r.pendingFinal, r.doneBy⟩

/-!  Line reassembly from byte chunks (`dify_client.execute_workflow_stream`,
lines 101–122): each chunk is decoded with `chunk.decode('utf-8',
errors='ignore')` and appended to a buffer; complete lines are split off at
`'\n'`, stripped, and yielded when non-empty; at stream end a non-empty
stripped remainder is yielded.  Bytes are modelled as `Nat` values below
256. -/

/-- Is `b` a UTF-8 continuation byte? -/
def isCont (b : Nat) : Bool := 128 ≤ b && b < 192

/-- UTF-8 decoding with Python's `errors='ignore'` handler: invalid
sequences are dropped (the maximal valid subpart of an invalid sequence is
consumed and skipped) and decoding continues.  Covers the standard lead
ranges including the overlong / surrogate / out-of-range exclusions. -/
def decodeUtf8F : Nat → List Nat → List Char
  | 0, _ => []
  | _ + 1, [] => []
  | fuel + 1, b :: rest =>
    if b < 128 then Char.ofNat b :: decodeUtf8F fuel rest
    else if b < 194 then decodeUtf8F fuel rest
    else if b < 224 then
      match rest with
      | [] => []
      | c1 :: r1 =>
        if isCont c1 then
          Char.ofNat ((b - 192) * 64 + (c1 - 128)) :: decodeUtf8F fuel r1
        else decodeUtf8F fuel (c1 :: r1)
    else if b < 240 then
      match rest with
      | [] => []
      | d1 :: s1 =>
        let d1ok :=
          if b == 224 then 160 ≤ d1 && d1 < 192
          else if b == 237 then 128 ≤ d1 && d1 < 160
          else isCont d1
        if d1ok then
          match s1 with
          | [] => []
          | d2 :: s2 =>
            if isCont d2 then
              Char.ofNat (((b - 224) * 64 + (d1 - 128)) * 64 + (d2 - 128)) ::
                decodeUtf8F fuel s2
            else decodeUtf8F fuel (d2 :: s2)
        else decodeUtf8F fuel (d1 :: s1)
    else if b < 245 then
      match rest with
      | [] => []
      | f1 :: t1 =>
        let f1ok :=
          if b == 240 then 144 ≤ f1 && f1 < 192
          else if b == 244 then 128 ≤ f1 && f1 < 144
          else isCont f1
        if f1ok then
          match t1 with
          | [] => []
          | f2 :: t2 =>
            if isCont f2 then
              match t2 with
              | [] => []
              | f3 :: t3 =>
                if isCont f3 then
                  Char.ofNat ((((b - 240) * 64 + (f1 - 128)) * 64 + (f2 - 128)) * 64
                      + (f3 - 128)) :: decodeUtf8F fuel t3
                else decodeUtf8F fuel (f3 :: t3)
            else decodeUtf8F fuel (f2 :: t2)
        else decodeUtf8F fuel (f1 :: t1)
    else decodeUtf8F fuel rest

/-- UTF-8 decoding with always-sufficient fuel (every step consumes at
least one byte). -/
def decodeUtf8Ignore (bs : List Nat) : List Char :=
  decodeUtf8F bs.length bs

/-- Split a character sequence at every `'\n'`: the list of complete
segments (one per newline, in order) and the trailing segment after the
last newline.  This is the repeated `buffer.split('\n', 1)` loop of
`execute_workflow_stream` run to exhaustion on one buffer. -/
def splitParts : List Char → List (List Char) × List Char
  | [] => ([], [])
  | c :: cs =>
    if c = '\n' then
      let (ls, r) := splitParts cs
      ([] :: ls, r)
    else
      match splitParts cs with
      | ([], r) => ([], c :: r)
      | (l :: ls, r) => ((c :: l) :: ls, r)

/-- Trim each segment and drop the empty ones (`line.strip()` followed by
`if line: yield line`). -/
def trimDrop (ls : List (List Char)) : List (List Char) :=
  (ls.map trimL).filter (fun l => l ≠ [])

/-- The chunk loop of `execute_workflow_stream` with the pending-buffer
state explicit: decode each non-empty chunk, append to the buffer, yield
every stripped non-empty complete line, keep the trailing partial segment;
at stream end yield the stripped remainder when non-empty. -/
def feedChunks (buf : List Char) : List (List Nat) → List (List Char)
  | [] =>
    let t := trimL buf
    if t = [] then [] else [t]
  | ch :: chs =>
    if ch.isEmpty then feedChunks buf chs
    else
      let (ls, r) := splitParts (buf ++ decodeUtf8Ignore ch)
      trimDrop ls ++ feedChunks r chs

/-- Line reassembly for a whole chunk sequence. -/
def reassembleLines (chunks : List (List Nat)) : List (List Char) :=
  feedChunks [] chunks

/-- The trimmed non-empty lines of a complete text (every segment,
including the trailing one, stripped and dropped when empty): what
re-chunking invariance compares against. -/
def linesOfText (cs : List Char) : List (List Char) :=
  trimDrop ((splitParts cs).1 ++ [(splitParts cs).2])

/-- The records produced by `_parse_sse_line` over a line sequence,
threading the `_current_event` attribute. -/
def parseRecords (pending : Option String) : List String → List DifySSEEvent
  | [] => []
  | l :: ls =>
    match parseSSELine pending l with
    | (p', none) => parseRecords p' ls
    | (p', some e) => e :: parseRecords p' ls

/-- The decoded envelope is an object whose `event` entry is the string
`"workflow_finished"`. -/
def envelopeFinished (v : JValue) : Prop :=
  ∃ kvs, v = .obj kvs ∧ objGet kvs "event" = some (.str "workflow_finished")

/-- Spec-side description of the final `result` field, following the
amended claim C3: a string with non-whitespace content is JSON-decoded,
falling back to the `text` wrapper; a non-empty all-whitespace string is
used verbatim; the empty string gives `null`; a present non-string value
is used verbatim when truthy and `null` when falsy; an absent value gives
`null`. -/
def resultFieldAmended : Option JValue → JValue
  | some (.str s) =>
    if pyStrip s != "" then
      match jsonParse s with
      | some v => v
      | none => .obj [("text", .str s)]
    else if s != "" then .str s
    else .null
  | some v => if v.truthy then v else .null
  | none => .null

/-- Keep-alive discipline: scanning the operation list with a `live` flag,
a timer is only ever started when none is pending (the previous one was
cancelled or none existed). -/
def timerDiscipline : Bool → List TimerOp → Bool
  | _, [] => true
  | _, .cancel :: rest => timerDiscipline false rest
  | live, .start :: rest => !live && timerDiscipline true rest

/-- All bytes of all chunks are single-byte (ASCII) UTF-8. -/
def allAscii (chunks : List (List Nat)) : Bool :=
  chunks.all (fun c => c.all (fun b => b < 128))

/-- A `workflow_finished` record whose envelope's `outputs.result` is the
empty string (claim C3's counterexample input). -/
def emptyResultRecord : DifySSEEvent :=
  ⟨"workflow_finished",
    "\x7b\"event\": \"workflow_finished\", \"data\": \x7b\"outputs\": \x7b\"result\": \"\"\x7d\x7d\x7d"⟩

/-- A record whose envelope carries `event = "error"` but whose `data`
entry is the string `"boom"` rather than an object (claim C4's
counterexample input). -/
def errStringDataRecord : DifySSEEvent :=
  ⟨"message", "\x7b\"event\": \"error\", \"data\": \"boom\"\x7d"⟩

/-- A well-formed terminal success record (used to show that processing
continues past records the code skips). -/
def finishedRecord : DifySSEEvent :=
  ⟨"workflow_finished",
    "\x7b\"event\": \"workflow_finished\", \"data\": \x7b\"outputs\": \x7b\"result\": \"ok\"\x7d\x7d\x7d"⟩

/-- A progress record that only carries a correlation id. -/
def progressRecord : DifySSEEvent :=
  ⟨"message", "\x7b\"workflow_run_id\": \"w1\"\x7d"⟩

/-- An error-envelope record with an object `data` entry carrying error
text (used as witness input for the amended claim C4). -/
def errObjDataRecord : DifySSEEvent :=
  ⟨"message", "\x7b\"event\": \"error\", \"data\": \x7b\"error\": \"boom\"\x7d\x7d"⟩

/-- A record that sets `workflow_run_id` to the empty string (claim C5's
counterexample input: the id is observed but falsy). -/
def emptyIdRecord : DifySSEEvent :=
  ⟨"message", "\x7b\"workflow_run_id\": \"\"\x7d"⟩

/-- A record whose data is valid JSON but not an object (claim C7's
failing input). -/
def arrayDataRecord : DifySSEEvent := ⟨"message", "[1, 2]"⟩

/-- Witness record for the amended claim C3: `outputs.result` is the
doubly-encoded JSON string for the object with `a = 1`. -/
def nestedJsonRecord : DifySSEEvent :=
  ⟨"workflow_finished",
    "\x7b\"event\": \"workflow_finished\", \"data\": \x7b\"outputs\": \x7b\"result\": \"\x7b\\\"a\\\":1\x7d\"\x7d\x7d\x7d"⟩

/-- The SSE line carrying `finishedRecord`'s payload. -/
def finishedLine : String :=
  "data: \x7b\"event\": \"workflow_finished\", \"data\": \x7b\"outputs\": \x7b\"result\": \"ok\"\x7d\x7d\x7d"

/-!  Theorems. -/

/-- Coherence of the two granularities of the orchestrator model: the
values yielded by the line loop are exactly those produced by the
record-level orchestrator on the parsed records. -/
theorem processLoop_outputs_eq_processRecords :
    ∀ (lines : List String) (p : Option String) (wid tid : Option JValue)
      (se : StreamEnd),
      (processLoop p wid tid lines se).outputs =
        processRecords wid tid (parseRecords p lines) se := by
  intro lines
  induction lines with
  | nil => intro p wid tid se; cases se <;> rfl
  | cons l rest ih =>
    intro p wid tid se
    rcases hp : parseSSELine p l with ⟨p', r?⟩
    cases r? with
    | none => simp [processLoop, parseRecords, hp, ih]
    | some e =>
      rcases ha : recordAction wid tid e with ⟨act, w, t⟩
      cases act with
      | emit o => simp [processLoop, parseRecords, processRecords, hp, ha]
      | skip restart => simp [processLoop, parseRecords, processRecords, hp, ha, ih]

/-- C1.  Every invocation of the stream processor that runs to completion
yields exactly one value, on every path — terminal success record, error
record, stream exhaustion, or an upstream exception. -/
theorem stream_processor_yields_exactly_one_output
    (p : Option String) (lines : List String) (se : StreamEnd) :
    ∃ o, (processDifyStream p lines se).outputs = [o] := by
  suffices h : ∀ (lines : List String) (p : Option String)
      (wid tid : Option JValue) (se : StreamEnd),
      ∃ o, (processLoop p wid tid lines se).outputs = [o] by
    rcases h lines p none none se with ⟨o, ho⟩
    exact ⟨o, by simp [processDifyStream, ho]⟩
  intro lines
  induction lines with
  | nil => intro p wid tid se; cases se <;> exact ⟨_, rfl⟩
  | cons l rest ih =>
    intro p wid tid se
    rcases hp : parseSSELine p l with ⟨p', r?⟩
    cases r? with
    | none =>
      rcases ih p' wid tid se with ⟨o, ho⟩
      exact ⟨o, by simp [processLoop, hp, ho]⟩
    | some e =>
      rcases ha : recordAction wid tid e with ⟨act, w, t⟩
      cases act with
      | emit o => exact ⟨o, by simp [processLoop, hp, ha]⟩
      | skip restart =>
        rcases ih p' w t se with ⟨o, ho⟩
        exact ⟨o, by simp [processLoop, hp, ha, ho]⟩

/-- C2.  A record is classified as the terminal success event iff its
decoded envelope is an object with `event = "workflow_finished"`; the
SSE-level `event_type` of the record plays no part (replacing it changes
nothing), and a record whose data does not decode to such an object is
never terminal. -/
theorem finished_classification_uses_envelope_only (e : DifySSEEvent) :
    (isWorkflowFinishedEvent e = true ↔ envelopeFinished e.parse_data)
    ∧ (∀ t, isWorkflowFinishedEvent ⟨t, e.data⟩ = isWorkflowFinishedEvent e) := by
  refine ⟨⟨?_, ?_⟩, fun t => rfl⟩
  · intro h
    unfold isWorkflowFinishedEvent at h
    split at h
    · rename_i kvs hv
      split at h
      · rename_i s ho
        have hs : s = "workflow_finished" := by simpa using h
        exact ⟨kvs, hv, by rw [ho, hs]⟩
      · simp at h
    · simp at h
  · rintro ⟨kvs, hv, he⟩
    unfold isWorkflowFinishedEvent
    rw [hv]
    simp [he]

/-- C3 counterexample.  The claim asserts that every string-valued
`outputs.result` — the empty string included — yields either its JSON
decode or the `text` wrapper.  On the empty string the code takes neither
branch (`result_raw.strip()` is falsy and `result_raw` is falsy) and the
output `result` is `null`, which is not the wrapper and not a decode
(the empty string has none). -/
theorem result_extraction_empty_string_counterexample :
    (extractWorkflowResult emptyResultRecord).map Extracted.result = some .null
    ∧ jsonParse "" = none
    ∧ JValue.null ≠ .obj [("text", .str "")] :=
  ⟨rfl, rfl, fun h => JValue.noConfusion h⟩

/-- C3 amended.  For every terminal success record whose envelope decodes
to an object (with object-shaped `data` and `outputs` entries, absent
entries defaulting to empty objects as in the code), the extracted
`result` field is exactly `resultFieldAmended` of `outputs.result`: a
string with non-whitespace content is JSON-decoded with fallback to the
`text` wrapper (the raw text is never discarded); a non-empty
all-whitespace string is used verbatim; the empty string and falsy
non-string values give `null`; truthy non-string values are used verbatim;
an absent value gives `null`. -/
theorem result_extraction_amended (e : DifySSEEvent)
    (kvs dkvs okvs : List (String × JValue))
    (h1 : e.parse_data = .obj kvs)
    (h2 : (objGet kvs "data").getD (.obj []) = .obj dkvs)
    (h3 : (objGet dkvs "outputs").getD (.obj []) = .obj okvs) :
    (extractWorkflowResult e).map Extracted.result =
      some (resultFieldAmended (objGet okvs "result")) := by
  simp only [extractWorkflowResult, h1, h2, h3]
  cases hr : objGet okvs "result" with
  | none => rfl
  | some v => cases v <;> rfl

/-- Witness for the amended claim C3 at the doubly-encoded record. -/
theorem result_extraction_amended_witness :
    (extractWorkflowResult nestedJsonRecord).map Extracted.result =
      some (resultFieldAmended (objGet [("result", .str "\x7b\"a\":1\x7d")] "result")) :=
  result_extraction_amended nestedJsonRecord
    [("event", .str "workflow_finished"),
     ("data", .obj [("outputs", .obj [("result", .str "\x7b\"a\":1\x7d")])])]
    [("outputs", .obj [("result", .str "\x7b\"a\":1\x7d")])]
    [("result", .str "\x7b\"a\":1\x7d")]
    rfl rfl rfl

/-- C10.  `DifySSEEvent.parse_data` is total; when the data field is not
valid JSON it returns the `raw_data` wrapper object — which has no
`event` entry, so downstream classification treats the record as an
ordinary non-terminal envelope rather than an exception. -/
theorem parse_data_total_wraps_invalid_json (e : DifySSEEvent)
    (h : jsonParse e.data = none) :
    e.parse_data = .obj [("raw_data", .str e.data)]
    ∧ objGet [("raw_data", .str e.data)] "event" = none
    ∧ isWorkflowFinishedEvent e = false := by
  refine ⟨?_, ?_, ?_⟩
  · simp [DifySSEEvent.parse_data, h]
  · rfl
  · simp [isWorkflowFinishedEvent, DifySSEEvent.parse_data, h, objGet]

/-- The ids returned by `recordAction` are exactly the scraped ids. -/
theorem recordAction_snd (wid tid : Option JValue) (e : DifySSEEvent) :
    (recordAction wid tid e).2 = scrapeIds wid tid e := by
  unfold recordAction
  rcases hs : scrapeIds wid tid e with ⟨w, t⟩
  simp only [hs]
  repeat' split
  all_goals rfl

/-- When the envelope decodes to an object whose `event` entry is the
string `"error"`, the error-classification test succeeds (through either
disjunct) without raising. -/
theorem errorCheck_ok_true_of_envelope (e : DifySSEEvent)
    (kvs : List (String × JValue))
    (henv : e.parse_data = .obj kvs)
    (hev : objGet kvs "event" = some (.str "error")) :
    errorCheck e = .ok true := by
  unfold errorCheck
  split
  · rfl
  · rw [henv]
    simp [hev]

/-- C4 counterexample.  The stream below contains a record whose decoded
envelope has `event = "error"` before any terminal success record, yet no
`ErrorResult` is emitted and the later record is processed: because the
envelope's `data` entry is a string, building the error message raises
inside the error branch's `try`, and the `except ...: continue` skips the
record, so the run ends in the later record's `SimplifiedResult`. -/
theorem error_envelope_counterexample :
    (∃ kvs, errStringDataRecord.parse_data = .obj kvs
        ∧ objGet kvs "event" = some (.str "error"))
    ∧ processRecords none none [errStringDataRecord, finishedRecord] .normal =
        [.success ⟨.str "", .str "", .str "unknown", .obj [("text", .str "ok")]⟩] :=
  ⟨⟨[("event", .str "error"), ("data", .str "boom")], rfl, rfl⟩, rfl⟩

/-- C4 amended.  For every stream in which the records before a given
error-envelope record are all discarded (none terminates the run), and the
error record's envelope is an object whose `data` entry is absent or an
object, exactly one `ErrorResult` is emitted: its error text is
`Envelope.data.error` (default `"Unknown error from Dify API"` when
absent), its ids are the ones accumulated up to and including that record
(rendered through `x or "unknown"`), and no later record is processed. -/
theorem error_envelope_amended :
    ∀ (pre : List DifySSEEvent) (w0 t0 : Option JValue) (r : DifySSEEvent)
      (post : List DifySSEEvent) (se : StreamEnd)
      (kvs dkvs : List (String × JValue)),
      allSkip w0 t0 pre = true →
      r.parse_data = .obj kvs →
      objGet kvs "event" = some (.str "error") →
      (objGet kvs "data").getD (.obj []) = .obj dkvs →
      processRecords w0 t0 (pre ++ r :: post) se =
        [.error (createErrorResponseJ
          ((objGet dkvs "error").getD (.str "Unknown error from Dify API"))
          (idsAfter w0 t0 (pre ++ [r])).1 (idsAfter w0 t0 (pre ++ [r])).2)] := by
  intro pre
  induction pre with
  | nil =>
    intro w0 t0 r post se kvs dkvs _ henv hev hdata
    have hec := errorCheck_ok_true_of_envelope r kvs henv hev
    rcases hs : scrapeIds w0 t0 r with ⟨w, t⟩
    have heb : errorBranch r w t =
        some (createErrorResponseJ
          ((objGet dkvs "error").getD (.str "Unknown error from Dify API")) w t) := by
      unfold errorBranch
      rw [henv]
      simp [hdata]
    simp [processRecords, recordAction, hs, hec, heb, idsAfter]
  | cons p pre' ih =>
    intro w0 t0 r post se kvs dkvs hpre henv hev hdata
    rcases ha : recordAction w0 t0 p with ⟨act, w, t⟩
    have hs : scrapeIds w0 t0 p = (w, t) := by
      rw [← recordAction_snd w0 t0 p, ha]
    cases act with
    | emit o => simp [allSkip, ha] at hpre
    | skip rst =>
      have hpre' : allSkip w t pre' = true := by simpa [allSkip, ha] using hpre
      have h1 : processRecords w0 t0 ((p :: pre') ++ r :: post) se =
          processRecords w t (pre' ++ r :: post) se := by
        simp [processRecords, ha]
      have h2 : idsAfter w0 t0 ((p :: pre') ++ [r]) = idsAfter w t (pre' ++ [r]) := by
        simp [idsAfter, hs]
      rw [h1, h2]
      exact ih w t r post se kvs dkvs hpre' henv hev hdata

/-- Witness for the amended claim C4: a progress record, then an error
envelope with object data, then a success record that is never reached. -/
theorem error_envelope_amended_witness :
    processRecords none none
        ([progressRecord] ++ errObjDataRecord :: [finishedRecord]) .normal =
      [.error (createErrorResponseJ
        ((objGet [("error", .str "boom")] "error").getD
          (.str "Unknown error from Dify API"))
        (idsAfter none none ([progressRecord] ++ [errObjDataRecord])).1
        (idsAfter none none ([progressRecord] ++ [errObjDataRecord])).2)] :=
  error_envelope_amended [progressRecord] none none errObjDataRecord
    [finishedRecord] .normal
    [("event", .str "error"), ("data", .obj [("error", .str "boom")])]
    [("error", .str "boom")]
    rfl rfl rfl rfl

/-- C5 counterexample.  The claim says the exhaustion `ErrorResult` carries
the accumulated identifiers, or `"unknown"` only when never observed.  In
the stream below `workflow_run_id` is observed (accumulated as the empty
string), yet the output renders it `"unknown"` because the code uses the
truthiness idiom `workflow_run_id or "unknown"`. -/
theorem exhaustion_falsy_id_counterexample :
    idsAfter none none [emptyIdRecord] = (some (.str ""), none)
    ∧ processRecords none none [emptyIdRecord] .normal =
        [.error ⟨.str "unknown", .str "unknown",
          .str "Stream ended without workflow completion"⟩]
    ∧ JValue.str "unknown" ≠ .str "" := by
  refine ⟨rfl, rfl, ?_⟩
  intro h
  injection h with h'
  exact absurd h' (by decide)

/-- C5 amended.  Every stream whose records are all discarded (no error
and no extracted terminal success) ends, on exhaustion, with exactly one
`ErrorResult` carrying exactly the message
`"Stream ended without workflow completion"` and the accumulated
correlation ids rendered through `x or "unknown"` (so `"unknown"` when an
id was never observed or its last observed value is falsy). -/
theorem exhaustion_amended :
    ∀ (rs : List DifySSEEvent) (w0 t0 : Option JValue),
      allSkip w0 t0 rs = true →
      processRecords w0 t0 rs .normal =
        [.error (createErrorResponse "Stream ended without workflow completion"
          (idsAfter w0 t0 rs).1 (idsAfter w0 t0 rs).2)] := by
  intro rs
  induction rs with
  | nil => intro w0 t0 _; simp [processRecords, idsAfter]
  | cons p rs' ih =>
    intro w0 t0 hpre
    rcases ha : recordAction w0 t0 p with ⟨act, w, t⟩
    have hs : scrapeIds w0 t0 p = (w, t) := by
      rw [← recordAction_snd w0 t0 p, ha]
    cases act with
    | emit o => simp [allSkip, ha] at hpre
    | skip rst =>
      have hpre' : allSkip w t rs' = true := by simpa [allSkip, ha] using hpre
      simp [processRecords, ha, idsAfter, hs, ih w t hpre']

/-- Witness for the amended claim C5 at a stream of one progress record. -/
theorem exhaustion_amended_witness :
    processRecords none none [progressRecord] .normal =
      [.error (createErrorResponse "Stream ended without workflow completion"
        (idsAfter none none [progressRecord]).1
        (idsAfter none none [progressRecord]).2)] :=
  exhaustion_amended [progressRecord] none none rfl

/-- C7 (code bug).  A record whose data is valid JSON but not an object
(here the array `[1, 2]`) is neither discarded nor survivable: the
unguarded `event.parse_data().get('event')` in the error-classification
test raises `AttributeError`, the top-level handler emits a
`"Stream processing error"` `ErrorResult`, and the following well-formed
terminal record is never processed — where the claim (and the spec's
best-effort rule) require the record to be skipped and consumption to
continue. -/
theorem nonobject_data_aborts_stream :
    jsonParse "[1, 2]" = some (.arr [.num 1 0, .num 2 0])
    ∧ processRecords none none [arrayDataRecord, finishedRecord] .normal =
        [.error ⟨.str "unknown", .str "unknown",
          .str "Stream processing error: 'list' object has no attribute 'get'"⟩] :=
  ⟨rfl, rfl⟩

/-- C8 (code bug).  `_current_event` lives on the module-level singleton
(`main.py` line 55), so it survives across invocations of
`process_dify_stream`: after an invocation that saw `event: error` and no
data line, a second invocation beginning with a bare `data:` line builds
its record with the leaked event type `"error"` instead of the default
`"message"` — and its output changes accordingly (an
`"Unknown error from Dify API"` `ErrorResult` instead of the exhaustion
error a fresh processor produces on the very same lines). -/
theorem pending_event_leaks_across_invocations :
    (processDifyStream none ["event: error"] .normal).pendingFinal = some "error"
    ∧ (processDifyStream (some "error") ["data: \x7b\"msg\": 1\x7d"] .normal).outputs =
        [.error ⟨.str "unknown", .str "unknown", .str "Unknown error from Dify API"⟩]
    ∧ (processDifyStream none ["data: \x7b\"msg\": 1\x7d"] .normal).outputs =
        [.error ⟨.str "unknown", .str "unknown",
          .str "Stream ended without workflow completion"⟩]
    ∧ (parseSSELine none "data: \x7b\"msg\": 1\x7d").2 =
        some ⟨"message", "\x7b\"msg\": 1\x7d"⟩ :=
  ⟨rfl, rfl, rfl, rfl⟩

/-- Prepending to a non-empty list does not change its last element. -/
theorem getLast?_cons_some {α : Type} (x a : α) (xs : List α)
    (h : xs.getLast? = some a) : (x :: xs).getLast? = some a := by
  cases xs with
  | nil => simp at h
  | cons y ys => rw [List.getLast?_cons_cons]; exact h

/-- The loop's timer trace always respects the cancel-before-start
discipline, whatever the liveness state at entry. -/
theorem processLoop_timerDiscipline :
    ∀ (lines : List String) (p : Option String) (wid tid : Option JValue)
      (se : StreamEnd) (live : Bool),
      timerDiscipline live (processLoop p wid tid lines se).timerOps = true := by
  intro lines
  induction lines with
  | nil => intro p wid tid se live; cases se <;> rfl
  | cons l rest ih =>
    intro p wid tid se live
    rcases hp : parseSSELine p l with ⟨p', r?⟩
    cases r? with
    | none => simp [processLoop, hp, timerDiscipline, ih]
    | some e =>
      rcases ha : recordAction wid tid e with ⟨act, w, t⟩
      cases act with
      | emit o => simp [processLoop, hp, ha, timerDiscipline]
      | skip restart =>
        cases restart <;> simp [processLoop, hp, ha, timerDiscipline, ih]

/-- When the loop ends through a record, its last timer operation is the
cancel performed at the top of that record's iteration: no timer is left
pending. -/
theorem processLoop_record_ends_cancelled :
    ∀ (lines : List String) (p : Option String) (wid tid : Option JValue)
      (se : StreamEnd),
      (processLoop p wid tid lines se).doneBy = .record →
      (processLoop p wid tid lines se).timerOps.getLast? = some .cancel := by
  intro lines
  induction lines with
  | nil => intro p wid tid se h; cases se <;> simp [processLoop] at h
  | cons l rest ih =>
    intro p wid tid se h
    rcases hp : parseSSELine p l with ⟨p', r?⟩
    cases r? with
    | none =>
      have hd : (processLoop p' wid tid rest se).doneBy = .record := by
        simpa [processLoop, hp] using h
      have := ih p' wid tid se hd
      simp only [processLoop, hp]
      exact getLast?_cons_some _ _ _ this
    | some e =>
      rcases ha : recordAction wid tid e with ⟨act, w, t⟩
      cases act with
      | emit o => simp [processLoop, hp, ha]
      | skip restart =>
        have hd : (processLoop p' w t rest se).doneBy = .record := by
          simpa [processLoop, hp, ha] using h
        have hlast := ih p' w t se hd
        cases restart with
        | false =>
          simp only [processLoop, hp, ha]
          exact getLast?_cons_some _ _ _ hlast
        | true =>
          simp only [processLoop, hp, ha]
          exact getLast?_cons_some _ _ _ (getLast?_cons_some _ _ _ hlast)

/-- C9 counterexample.  The claim says the timer is cancelled
unconditionally on the final transition to DONE.  On a stream that ends by
exhaustion after one non-terminal record, the last timer operation of the
run is a `start` (the restart at the bottom of that record's iteration):
the timer started there is never cancelled — the exhaustion path yields
the final error and returns without touching it. -/
theorem keepalive_not_cancelled_on_exhaustion_counterexample :
    (processDifyStream none ["data: \x7b\"x\": 1\x7d"] .normal).timerOps =
      [.start, .cancel, .start]
    ∧ (processDifyStream none ["data: \x7b\"x\": 1\x7d"] .normal).timerOps.getLast? =
        some .start
    ∧ (processDifyStream none ["data: \x7b\"x\": 1\x7d"] .normal).doneBy = .exhaustion :=
  ⟨rfl, rfl, rfl⟩

/-- C9 amended.  In every invocation the timer trace obeys the
cancel-before-start discipline (a fresh timer is only started once the
pending one has been cancelled — the cancel at the top of each iteration
precedes any restart), and every run that terminates through a record ends
with a cancel, leaving no pending timer; by contrast (see the
counterexample) runs ending by exhaustion or upstream exception after a
non-terminal record leave the last started timer pending.  A timer firing
itself never affects the run: `_send_keepalive` merely sleeps and returns,
so outputs are a function of the input lines alone. -/
theorem keepalive_amended (p : Option String) (lines : List String)
    (se : StreamEnd) :
    timerDiscipline false (processDifyStream p lines se).timerOps = true
    ∧ ((processDifyStream p lines se).doneBy = .record →
        (processDifyStream p lines se).timerOps.getLast? = some .cancel) := by
  constructor
  · have h := processLoop_timerDiscipline lines p none none se true
    simp [processDifyStream, timerDiscipline, h]
  · intro hd
    have hd' : (processLoop p none none lines se).doneBy = .record := hd
    have hlast := processLoop_record_ends_cancelled lines p none none se hd'
    simp only [processDifyStream]
    exact getLast?_cons_some _ _ _ hlast

/-- Witness for the amended claim C9 at a run terminated by a success
record. -/
theorem keepalive_amended_witness :
    (processDifyStream none [finishedLine] .normal).timerOps.getLast? =
      some .cancel :=
  (keepalive_amended none [finishedLine] .normal).2 rfl

/-- Witness for C10 at the concrete record carrying data `"not json"`. -/
theorem parse_data_total_wraps_invalid_json_witness :
    DifySSEEvent.parse_data ⟨"message", "not json"⟩ =
      .obj [("raw_data", .str "not json")]
    ∧ objGet [("raw_data", .str "not json")] "event" = none
    ∧ isWorkflowFinishedEvent ⟨"message", "not json"⟩ = false :=
  parse_data_total_wraps_invalid_json ⟨"message", "not json"⟩ rfl

/-- On single-byte (ASCII) input, the permissive UTF-8 decode is the
byte-to-character map, for any sufficient fuel. -/
theorem decodeUtf8F_ascii :
    ∀ (a : List Nat) (fuel : Nat), a.length ≤ fuel → (∀ b ∈ a, b < 128) →
      decodeUtf8F fuel a = a.map Char.ofNat := by
  intro a
  induction a with
  | nil => intro fuel _ _; cases fuel <;> rfl
  | cons b a' ih =>
    intro fuel hlen hb
    cases fuel with
    | zero => simp at hlen
    | succ f =>
      have hb0 : b < 128 := hb b (List.mem_cons_self b a')
      have := ih f (by simpa using hlen) (fun x hx => hb x (List.mem_cons_of_mem b hx))
      simp [decodeUtf8F, hb0, this]

/-- On single-byte (ASCII) input, the permissive UTF-8 decode is the
byte-to-character map. -/
theorem decodeUtf8Ignore_ascii (a : List Nat) (h : ∀ b ∈ a, b < 128) :
    decodeUtf8Ignore a = a.map Char.ofNat :=
  decodeUtf8F_ascii a a.length le_rfl h

/-- Splitting a concatenation: the complete segments of `a ++ b` are those
of `a` followed by those of the trailing segment of `a` glued onto `b`. -/
theorem splitParts_append :
    ∀ (a b : List Char),
      splitParts (a ++ b) =
        ((splitParts a).1 ++ (splitParts ((splitParts a).2 ++ b)).1,
         (splitParts ((splitParts a).2 ++ b)).2) := by
  intro a
  induction a with
  | nil => intro b; simp [splitParts]
  | cons c a' ih =>
    intro b
    rcases h1 : splitParts a' with ⟨ls1, r1⟩
    have hab := ih b
    rw [h1] at hab
    simp only at hab
    by_cases hc : c = '\n'
    · subst hc
      simp [splitParts, hab, h1, List.append_eq]
    · cases ls1 with
      | nil =>
        simp only [List.nil_append] at hab
        rcases h2 : splitParts (r1 ++ b) with ⟨ls2, r2⟩
        rw [h2] at hab
        cases ls2 with
        | nil => simp [splitParts, hc, hab, h1, h2, List.append_eq]
        | cons x xs => simp [splitParts, hc, hab, h1, h2, List.append_eq]
      | cons l ls =>
        simp [splitParts, hc, hab, h1, List.append_eq]

/-- The trailing segment produced by `splitParts` contains no newline. -/
theorem splitParts_snd_no_newline : ∀ cs : List Char, '\n' ∉ (splitParts cs).2 := by
  intro cs
  induction cs with
  | nil => simp [splitParts]
  | cons c cs' ih =>
    by_cases hc : c = '\n'
    · subst hc
      rcases h1 : splitParts cs' with ⟨ls, r⟩
      rw [h1] at ih
      simp [splitParts, h1, ih]
    · rcases h1 : splitParts cs' with ⟨ls, r⟩
      rw [h1] at ih
      cases ls with
      | nil => simp [splitParts, hc, h1]; exact ⟨fun h => hc h.symm, ih⟩
      | cons l ls' => simp [splitParts, hc, h1, ih]

/-- A newline-free text has no complete segments: it is all trailer. -/
theorem splitParts_no_newline (cs : List Char) (h : '\n' ∉ cs) :
    splitParts cs = ([], cs) := by
  induction cs with
  | nil => rfl
  | cons c cs' ih =>
    have hc : c ≠ '\n' := fun hh => h (hh ▸ List.mem_cons_self c cs')
    have h' : '\n' ∉ cs' := fun hh => h (List.mem_cons_of_mem c hh)
    simp [splitParts, fun hh => hc hh, ih h']

/-- Distribution of `trimDrop` over concatenation. -/
theorem trimDrop_append (x y : List (List Char)) :
    trimDrop (x ++ y) = trimDrop x ++ trimDrop y := by
  simp [trimDrop]

/-- The incremental line reassembler equals the batch line splitter on the
whole text, for ASCII chunk content and a newline-free initial buffer. -/
theorem feedChunks_eq_linesOfText :
    ∀ (chunks : List (List Nat)) (buf : List Char),
      '\n' ∉ buf → (∀ ch ∈ chunks, ∀ x ∈ ch, x < 128) →
      feedChunks buf chunks =
        linesOfText (buf ++ (chunks.flatten).map Char.ofNat) := by
  intro chunks
  induction chunks with
  | nil =>
    intro buf hb _
    have hs := splitParts_no_newline buf hb
    by_cases ht : trimL buf = [] <;>
      simp [feedChunks, linesOfText, hs, trimDrop, ht]
  | cons ch chs ih =>
    intro buf hb hascii
    by_cases hch : ch.isEmpty
    · have hnil : ch = [] := by simpa [List.isEmpty_iff] using hch
      subst hnil
      simp only [feedChunks, if_pos rfl, List.flatten_cons, List.nil_append]
      exact ih buf hb (fun c hc => hascii c (List.mem_cons_of_mem _ hc))
    · have hdec : decodeUtf8Ignore ch = ch.map Char.ofNat :=
        decodeUtf8Ignore_ascii ch (hascii ch (List.mem_cons_self ch chs))
      rcases hA : splitParts (buf ++ ch.map Char.ofNat) with ⟨ls, r⟩
      have hr : '\n' ∉ r := by
        have := splitParts_snd_no_newline (buf ++ ch.map Char.ofNat)
        rw [hA] at this
        exact this
      have hIH := ih r hr (fun c hc => hascii c (List.mem_cons_of_mem _ hc))
      have hsplit := splitParts_append (buf ++ ch.map Char.ofNat)
        ((chs.flatten).map Char.ofNat)
      rw [hA] at hsplit
      simp only at hsplit
      have key : linesOfText (buf ++ ((ch :: chs).flatten).map Char.ofNat)
          = trimDrop ls ++ linesOfText (r ++ (chs.flatten).map Char.ofNat) := by
        simp only [linesOfText]
        have harr : buf ++ ((ch :: chs).flatten).map Char.ofNat
            = (buf ++ ch.map Char.ofNat) ++ (chs.flatten).map Char.ofNat := by
          simp
        rw [harr, hsplit]
        simp [trimDrop_append, List.append_assoc]
      rw [key, ← hIH]
      simp [feedChunks, hch, hdec, hA]

/-- For ASCII chunk sequences, reassembly is the batch line splitter of the
decoded whole. -/
theorem reassembleLines_eq (chunks : List (List Nat))
    (h : allAscii chunks = true) :
    reassembleLines chunks = linesOfText ((chunks.flatten).map Char.ofNat) := by
  have h' : ∀ ch ∈ chunks, ∀ x ∈ ch, x < 128 := by
    intro ch hch x hx
    have := List.all_eq_true.mp h ch hch
    exact of_decide_eq_true (List.all_eq_true.mp this x hx)
  simpa using feedChunks_eq_linesOfText chunks [] (by simp) h'

/-- C6 counterexample.  Two partitions of the same bytes — the UTF-8
encoding of `é` then a newline, split either as one chunk or with the
two-byte character cut across chunks — yield different line sequences:
each chunk is decoded independently with `errors='ignore'`, so the split
character is silently dropped. -/
theorem rechunking_counterexample :
    List.flatten [[195, 169, 10]] = List.flatten [[195], [169, 10]]
    ∧ reassembleLines [[195, 169, 10]] = [['é']]
    ∧ reassembleLines [[195], [169, 10]] = []
    ∧ ([['é']] : List (List Char)) ≠ [] :=
  ⟨rfl, rfl, rfl, by simp⟩

/-- C6 amended.  For every byte sequence of single-byte (ASCII)
characters — on which the per-chunk permissive decode is
chunking-insensitive — any two chunk partitions (empty chunks and mid-line
splits included) yield the identical sequence of trimmed lines, and hence
the whole subsystem yields identical output; invariance fails in general
only when a partition splits a multi-byte UTF-8 character across chunks
(see the counterexample). -/
theorem rechunking_invariance_ascii (c1 c2 : List (List Nat))
    (h1 : allAscii c1 = true) (h2 : allAscii c2 = true)
    (hj : c1.flatten = c2.flatten) :
    reassembleLines c1 = reassembleLines c2
    ∧ ∀ (p : Option String) (se : StreamEnd),
        (processDifyStream p ((reassembleLines c1).map List.asString) se).outputs =
          (processDifyStream p ((reassembleLines c2).map List.asString) se).outputs := by
  have e : reassembleLines c1 = reassembleLines c2 := by
    rw [reassembleLines_eq c1 h1, reassembleLines_eq c2 h2, hj]
  exact ⟨e, fun p se => by rw [e]⟩

/-- Witness for the amended claim C6: `data\n` in one chunk versus split
mid-line. -/
theorem rechunking_invariance_ascii_witness :
    reassembleLines [[100, 97, 116, 97, 10]] =
      reassembleLines [[100, 97], [116, 97, 10]] :=
  (rechunking_invariance_ascii [[100, 97, 116, 97, 10]] [[100, 97], [116, 97, 10]]
    (by decide) (by decide) rfl).1

end DifyWrapper
